import Mathlib

/-!
Shallow embedding of `src/MEMT/cpp/Server.cc` (the MEMT decoding server):
the per-request configuration parser (`QueryConfigParser`), the confidence
micro-parser (`ParseConfidences`), the startup configurator (`ParseService`),
and the connection supervisor loop (`RunLoadedService`).

Modelling conventions:
* Requests and command lines are lists of `(key, value)` pairs, the result of
  the textual `key=value` block reading that `boost::program_options`
  performs.  The `variables_map` of boost is modelled, following the spec's
  §4.3, as an occurrence count per key together with the first supplied value.
* Floating-point values (`LinearScore`, scoring weights, thresholds) are
  modelled as exact scaled decimals `num / 10 ^ scale` (structure `Dec`);
  the decoder's arithmetic is out of scope, only parsing and configuration
  plumbing are claimed.
* All definitions are structural (fuel-based where the source loops), so every
  concrete computation reduces inside the kernel.
-/

namespace Memt

/-! ### Character classes and the floating literal grammar -/

/-- Whitespace as skipped by `std::istream` extraction (`isspace` in the
`"C"` locale). -/
def isWsC (c : Char) : Bool :=
  c == ' ' || c == '\t' || c == '\n' || c == '\r' || c == '\x0b' || c == '\x0c'

/-- Characters that can occur in a decimal floating literal; the stream
number extractor accumulates a maximal run of these. -/
def numChar (c : Char) : Bool :=
  c.isDigit || c == '.' || c == '+' || c == '-' || c == 'e' || c == 'E'

def isExpChar (c : Char) : Bool := c == 'e' || c == 'E'

/-- Drop one optional leading sign character. -/
def stripSign : List Char → List Char
  | c :: r => if c == '+' || c == '-' then r else c :: r
  | [] => []

/-- Valid mantissa: optional sign, then digits with at most one decimal
point and at least one digit overall ("1", "1.", ".5", "-0.25"). -/
def validMant (cs : List Char) : Bool :=
  let m := stripSign cs
  let ip := m.takeWhile Char.isDigit
  match m.dropWhile Char.isDigit with
  | [] => !ip.isEmpty
  | '.' :: r2 => (!ip.isEmpty || !r2.isEmpty) && r2.all Char.isDigit
  | _ => false

/-- Valid exponent part (after the `e`/`E`): optional sign then at least
one digit. -/
def validExpo (cs : List Char) : Bool :=
  let e := stripSign cs
  !e.isEmpty && e.all Char.isDigit

/-- Valid decimal floating literal as accepted by `strtod`-style conversion
(no hex floats, no inf/nan, which the stream extractor of this server never
receives from well-formed requests). -/
def validFloat (cs : List Char) : Bool :=
  let m := cs.takeWhile (fun c => !isExpChar c)
  match cs.dropWhile (fun c => !isExpChar c) with
  | [] => validMant m
  | _ :: ex => validMant m && validExpo ex

/-! ### The confidence scanner

Modelled from the spec: `ParseConfidences` (Server.cc lines 192-200) runs
`while (parser >> score) push_back(score);` over an `istringstream` and
throws `BadConfidence` when the loop stops anywhere short of the end of the
string.  The extraction operator for `LinearScore` (declared in the absent
`lm/` headers) is modelled by the standard stream number extraction: skip
whitespace, accumulate the maximal run of number characters, convert it;
conversion failure sets the fail bit, and the eof bit is set exactly when
the accumulation ran into the end of the input. -/

/-- One pass of the extraction loop of `ParseConfidences`.  Returns the list
of successfully converted literals (the contents pushed into the confidence
vector) and the residue of the input at the point the loop stopped; the
residue is `[]` exactly when the stream ended with `eof()` set, i.e. when no
`BadConfidence` is thrown. -/
def confScanF : Nat → List Char → List (List Char) × List Char
  | 0, cs => ([], cs)
  | fuel + 1, cs =>
    let cs' := cs.dropWhile isWsC
    if cs'.isEmpty then ([], [])
    else
      let run := cs'.takeWhile numChar
      let rest := cs'.dropWhile numChar
      if run.isEmpty then ([], cs')
      else if validFloat run then
        let next := confScanF fuel rest
        (run :: next.1, next.2)
      else if rest.isEmpty then ([], [])
      else ([], rest)

def confScan (cs : List Char) : List (List Char) × List Char :=
  confScanF (cs.length + 1) cs

/-- `ParseConfidences` (Server.cc lines 192-200): parse the confidence
string; raise `BadConfidence` carrying the raw string when the scan stops
before the exact end. -/
def parseConfidences (s : String) : Except String (List (List Char)) :=
  if (confScan s.data).2.isEmpty then .ok (confScan s.data).1 else .error s

/-- Whitespace tokenization of a string: the maximal non-whitespace runs,
in order. -/
def wsTokensF : Nat → List Char → List (List Char)
  | 0, _ => []
  | fuel + 1, cs =>
    let cs' := cs.dropWhile isWsC
    if cs'.isEmpty then []
    else cs'.takeWhile (fun c => !isWsC c) :: wsTokensF fuel (cs'.dropWhile (fun c => !isWsC c))

def wsTokens (cs : List Char) : List (List Char) :=
  wsTokensF (cs.length + 1) cs

/-! ### Decimal numerals -/

def charVal (c : Char) : Nat := c.toNat - 48

/-- Value of a big-endian digit string. -/
def digitsVal (cs : List Char) : Nat := cs.foldl (fun a c => 10 * a + charVal c) 0

/-- Parse a non-empty all-digit string (the core of `lexical_cast` to an
unsigned integer type). -/
def parseNat (cs : List Char) : Option Nat :=
  if !cs.isEmpty && cs.all Char.isDigit then some (digitsVal cs) else none

/-- Little-endian decimal digits of `n`, with explicit fuel. -/
def natDigsF : Nat → Nat → List Nat
  | 0, _ => []
  | fuel + 1, n => if n = 0 then [] else n % 10 :: natDigsF fuel (n / 10)

def digitCh (d : Nat) : Char := Char.ofNat (48 + d)

/-- Canonical decimal numeral of a natural number. -/
def natChars (n : Nat) : List Char :=
  if n = 0 then ['0'] else ((natDigsF (n + 1) n).reverse.map digitCh)

def natStr (n : Nat) : String := String.mk (natChars n)

/-! ### Exact decimal values -/

/-- An exact decimal number `num / den`; the representation produced by the
literal parser is canonical for a given literal, which is all the claims
need (the decoder's floating arithmetic is out of scope). -/
structure Dec where
  num : Int
  den : Nat
  deriving DecidableEq

/-- Rational value denoted by a `Dec` (semantic reading). -/
def Dec.val (d : Dec) : ℚ := (d.num : ℚ) / (d.den : ℚ)

/-- Exact value of a valid decimal floating literal. -/
def decOfLit (cs : List Char) : Dec :=
  let m := cs.takeWhile (fun c => !isExpChar c)
  let expoPart := cs.dropWhile (fun c => !isExpChar c)
  let expo : Int :=
    match expoPart with
    | [] => 0
    | _ :: ex =>
      match ex with
      | '-' :: ds => -(digitsVal ds : Int)
      | '+' :: ds => (digitsVal ds : Int)
      | ds => (digitsVal ds : Int)
  let neg : Bool := match m with
    | '-' :: _ => true
    | _ => false
  let m' := stripSign m
  let ip := m'.takeWhile Char.isDigit
  let fr := match m'.dropWhile Char.isDigit with
    | '.' :: ds => ds
    | _ => []
  let mant : Int := (digitsVal (ip ++ fr) : Int)
  let mant' : Int := if neg then -mant else mant
  let t : Int := (fr.length : Int) - expo
  if 0 ≤ t then ⟨mant', 10 ^ t.toNat⟩ else ⟨mant' * 10 ^ (-t).toNat, 1⟩

def decLit (s : String) : Dec := decOfLit s.data

/-! ### Value conversions (`boost::lexical_cast` through the stream) -/

/-- Conversion of an option value to a floating score. -/
def decConv (s : String) : Option Dec :=
  if validFloat s.data then some (decOfLit s.data) else none

/-- Conversion to `bool` (the boost option validator's accepted spellings). -/
def boolConv (s : String) : Option Bool :=
  match s with
  | "1" | "true" | "yes" | "on" => some true
  | "0" | "false" | "no" | "off" => some false
  | _ => none

/-- Conversion to an unsigned integer (32-bit range). -/
def uintConv (s : String) : Option Nat :=
  match parseNat s.data with
  | some n => if n < 4294967296 then some n else none
  | none => none

/-- Conversion to a signed machine integer with the given bounds. -/
def intConvB (lo hi : Int) (s : String) : Option Int :=
  let signed : Option Int :=
    match s.data with
    | '-' :: ds => (parseNat ds).map (fun n => -(n : Int))
    | '+' :: ds => (parseNat ds).map (fun n => (n : Int))
    | ds => (parseNat ds).map (fun n => (n : Int))
  match signed with
  | some v => if lo ≤ v && v ≤ hi then some v else none
  | none => none

/-- Conversion to `int` (for the horizon radius). -/
def intConv (s : String) : Option Int := intConvB (-2147483648) 2147483647 s

/-- Conversion to `short int` (the declared type of the listen port,
Server.cc line 225): a SIGNED 16-bit integer. -/
def portConv (s : String) : Option Int := intConvB (-32768) 32767 s

/-! ### The per-request configuration (`QueryConfig`, Server.cc lines 77-99)

The nested configuration structures come from the absent headers
`MEMT/Decoder/Config.hh` and `MEMT/Input/Config.hh`; their fields are
modelled from the spec (§3 RequestConfig) and from the option bindings in
`QueryConfigParser::QueryConfigParser` (lines 102-176). -/

structure ScorerConfig where
  lm : Dec
  alignment : Dec
  ngram : Dec
  ngram_base : Dec
  overlap : Dec
  fuzz_rat : Dec
  deriving DecidableEq

structure CoverageConfig where
  old_horizon : Int
  use_new : Bool
  stay_threshold : Dec
  deriving DecidableEq

structure DecoderConfig where
  scorer : ScorerConfig
  internal_beam_size : Nat
  length_normalize : Bool
  end_beam_size : Nat
  coverage : CoverageConfig
  deriving DecidableEq

/-- `input::Config`: alignment behaviour flags, the parsed confidence
vector (each confidence kept as its parsed literal), and the horizon radius
copy consumed by the input factory. -/
structure InputConfig where
  pick_best : Bool
  transitive : Bool
  confidences : List (List Char)
  horizon_radius : Int
  deriving DecidableEq

structure QueryConfig where
  text : InputConfig
  decoder : DecoderConfig
  output_oracle_pfx : String
  output_one_best : String
  input_matched : String
  deriving DecidableEq

/-- The state of a `QueryConfigParser` object: its bound `config_` record and
the raw `confidence_string_` member.  One such object is constructed before
the accept loop and reused for every connection (Server.cc line 283). -/
structure PState where
  config_ : QueryConfig
  confidence_str : String
  deriving DecidableEq

/-- The error family of the server.  `argumentCount` and `badConfidence`
derive from `ArgumentParseError` and are caught at the per-connection
boundary; `unknownOption` and `invalidValue` model the
`boost::program_options` exceptions, which are not in that family. -/
inductive ReqError where
  | unknownOption : String → ReqError
  | invalidValue : String → ReqError
  | argumentCount : String → Nat → Nat → ReqError
  | badConfidence : String → ReqError
  deriving DecidableEq

/-- Does the error derive from `ArgumentParseError` (the family caught by
the inner boundary of `RunLoadedService`)? -/
def ReqError.isValidation : ReqError → Bool
  | .argumentCount _ _ _ => true
  | .badConfidence _ => true
  | _ => false

/-- The diagnostic text (`what()`) of each error.  `ArgumentCountException`
builds its message at lines 41-47; `BadConfidence::what` returns the raw
provided string (line 183). -/
def ReqError.text : ReqError → String
  | .argumentCount k e t =>
    "Expected " ++ k ++ " >= " ++ natStr e ++ " times, got it " ++ natStr t ++ "."
  | .badConfidence raw => raw
  | .unknownOption k => "unrecognised option " ++ k
  | .invalidValue k => "invalid option value for " ++ k

/-! ### Requests and the options table -/

/-- A request: the `key=value` entries of the configuration block read from
the connection, in order. -/
abbrev Request := List (String × String)

/-- All values supplied for a key, in order. -/
def valuesOf (req : Request) (k : String) : List String :=
  (req.filter (fun kv => kv.1 == k)).map (fun kv => kv.2)

/-- Modelled from the spec: `vm.count(key)` — the number of times a key is
supplied (spec §4.3 step 3: presence count must equal exactly 1). -/
def countKey (req : Request) (k : String) : Nat := (valuesOf req k).length

/-- The keys registered in `QueryConfigParser::QueryConfigParser`
(lines 102-176), in declaration order. -/
def declaredKeys : List String :=
  ["score.lm", "score.alignment", "score.ngram", "score.ngram_base",
   "score.overlap", "score.fuzz.ratio", "beam_size", "length_normalize",
   "output.nbest", "horizon.radius", "horizon.new", "horizon.threshold",
   "output.oracle_prefix", "output.one_best", "input.matched_file",
   "input.confidence", "align.pick_best", "align.transitive"]

/-- The mandatory options array of `QueryConfigParser::Parse` (line 206),
in that order. -/
def mandatoryOptions : List String :=
  ["score.lm", "score.alignment", "score.ngram", "score.overlap",
   "output.one_best", "input.matched_file", "input.confidence"]

/-- Does the supplied value for the key convert to the key's declared
type?  Keys bound to `std::string` always convert. -/
def convOk (k v : String) : Bool :=
  match k with
  | "score.lm" | "score.alignment" | "score.ngram" | "score.ngram_base"
  | "score.overlap" | "score.fuzz.ratio" | "horizon.threshold" => (decConv v).isSome
  | "beam_size" | "output.nbest" => (uintConv v).isSome
  | "length_normalize" | "horizon.new" | "align.pick_best"
  | "align.transitive" => (boolConv v).isSome
  | "horizon.radius" => (intConv v).isSome
  | _ => true

/-- A key's supplied value (if any) converts. -/
def fieldOk (req : Request) (k : String) : Bool :=
  match valuesOf req k with
  | [] => true
  | v :: _ => convOk k v

/-- Modelled from the spec: `po::parse_config_file` rejects a key that was
never registered. -/
def storeUnk (req : Request) : Option ReqError :=
  (req.find? (fun kv => !declaredKeys.contains kv.1)).map
    (fun kv => ReqError.unknownOption kv.1)

/-- Modelled from the spec: `po::store` converts each supplied value to the
declared type of its option and fails on the first option whose value does
not convert. -/
def fieldsErr (req : Request) : Option ReqError :=
  (declaredKeys.find? (fun k => !fieldOk req k)).map ReqError.invalidValue

/-- The contents of the `variables_map` after `po::store`: for every
registered option, the converted first supplied value, or the registered
default when the key is absent, or nothing for an absent option that has no
default. -/
structure VM where
  score_lm : Option Dec
  score_alignment : Option Dec
  score_ngram : Option Dec
  score_ngram_base : Option Dec
  score_overlap : Option Dec
  score_fuzz : Option Dec
  beam_size : Option Nat
  length_normalize : Option Bool
  output_nbest : Option Nat
  horizon_radius : Option Int
  horizon_new : Option Bool
  horizon_threshold : Option Dec
  output_oracle_pfx : Option String
  output_one_best : Option String
  input_matched : Option String
  input_confidence : Option String
  align_pick_best : Option Bool
  align_transitive : Option Bool
  deriving DecidableEq

/-- One option's entry in the `variables_map`: the converted first supplied
value, else the default. -/
def vmField {α : Type} (conv : String → Option α) (dflt : Option α)
    (req : Request) (k : String) : Option α :=
  match valuesOf req k with
  | [] => dflt
  | v :: _ => conv v

/-- The `variables_map` produced by a successful `po::store` with the
defaults declared at lines 102-176. -/
def theVM (req : Request) : VM where
  score_lm := vmField decConv none req "score.lm"
  score_alignment := vmField decConv none req "score.alignment"
  score_ngram := vmField decConv none req "score.ngram"
  score_ngram_base := vmField decConv (some (decLit "0.3333333333333333")) req "score.ngram_base"
  score_overlap := vmField decConv none req "score.overlap"
  score_fuzz := vmField decConv (some (decLit "0.0")) req "score.fuzz.ratio"
  beam_size := vmField uintConv (some 500) req "beam_size"
  length_normalize := vmField boolConv (some true) req "length_normalize"
  output_nbest := vmField uintConv (some 1) req "output.nbest"
  horizon_radius := vmField intConv (some 5) req "horizon.radius"
  horizon_new := vmField boolConv (some false) req "horizon.new"
  horizon_threshold := vmField decConv (some (decLit "0.8")) req "horizon.threshold"
  output_oracle_pfx := vmField some (some "") req "output.oracle_prefix"
  output_one_best := vmField some none req "output.one_best"
  input_matched := vmField some none req "input.matched_file"
  input_confidence := vmField some none req "input.confidence"
  align_pick_best := vmField boolConv (some false) req "align.pick_best"
  align_transitive := vmField boolConv (some false) req "align.transitive"

/-- `po::store`: unknown-key check, then value conversions, then the map. -/
def storeVM (req : Request) : Except ReqError VM :=
  match storeUnk req with
  | some e => .error e
  | none =>
    match fieldsErr req with
    | some e => .error e
    | none => .ok (theVM req)

/-- `po::notify`: write every value present in the map into the bound
member; members whose option is absent (and without default) keep their
previous contents. -/
def vmNotify (s : PState) (vm : VM) : PState where
  config_ :=
    { text :=
        { pick_best := vm.align_pick_best.getD s.config_.text.pick_best
          transitive := vm.align_transitive.getD s.config_.text.transitive
          confidences := s.config_.text.confidences
          horizon_radius := s.config_.text.horizon_radius }
      decoder :=
        { scorer :=
            { lm := vm.score_lm.getD s.config_.decoder.scorer.lm
              alignment := vm.score_alignment.getD s.config_.decoder.scorer.alignment
              ngram := vm.score_ngram.getD s.config_.decoder.scorer.ngram
              ngram_base := vm.score_ngram_base.getD s.config_.decoder.scorer.ngram_base
              overlap := vm.score_overlap.getD s.config_.decoder.scorer.overlap
              fuzz_rat := vm.score_fuzz.getD s.config_.decoder.scorer.fuzz_rat }
          internal_beam_size := vm.beam_size.getD s.config_.decoder.internal_beam_size
          length_normalize := vm.length_normalize.getD s.config_.decoder.length_normalize
          end_beam_size := vm.output_nbest.getD s.config_.decoder.end_beam_size
          coverage :=
            { old_horizon := vm.horizon_radius.getD s.config_.decoder.coverage.old_horizon
              use_new := vm.horizon_new.getD s.config_.decoder.coverage.use_new
              stay_threshold := vm.horizon_threshold.getD s.config_.decoder.coverage.stay_threshold } }
      output_oracle_pfx := vm.output_oracle_pfx.getD s.config_.output_oracle_pfx
      output_one_best := vm.output_one_best.getD s.config_.output_one_best
      input_matched := vm.input_matched.getD s.config_.input_matched }
  confidence_str := vm.input_confidence.getD s.confidence_str

/-- `CheckOnce` over the mandatory options (lines 64-69 applied at 206-207):
the first mandatory key whose count differs from 1 raises
`ArgumentCountException(key, 1, count)`. -/
def checkOnce (req : Request) : Option ReqError :=
  (mandatoryOptions.find? (fun k => countKey req k != 1)).map
    (fun k => ReqError.argumentCount k 1 (countKey req k))

/-- `QueryConfigParser::Parse` (lines 202-215): store, notify, `CheckOnce`,
`ParseConfidences` into `config_.text.confidences`, then copy the horizon
radius into the input sub-configuration (line 210).  Returns the mutated
parser state and the raised error, if any. -/
def parseStep (s : PState) (req : Request) : PState × Option ReqError :=
  match storeVM req with
  | .error e => (s, some e)
  | .ok vm =>
    let s1 := vmNotify s vm
    match checkOnce req with
    | some e => (s1, some e)
    | none =>
      let scan := confScan s1.confidence_str.data
      let s2 := { s1 with config_.text.confidences := scan.1 }
      if scan.2.isEmpty then
        ({ s2 with config_.text.horizon_radius := s2.config_.decoder.coverage.old_horizon }, none)
      else (s2, some (.badConfidence s1.confidence_str))

/-- A `QueryConfigParser` as default-constructed before the accept loop
(line 283): empty strings and zeroed members. -/
def initState : PState where
  config_ :=
    { text := { pick_best := false, transitive := false, confidences := [], horizon_radius := 0 }
      decoder :=
        { scorer := { lm := ⟨0, 1⟩, alignment := ⟨0, 1⟩, ngram := ⟨0, 1⟩,
                      ngram_base := ⟨0, 1⟩, overlap := ⟨0, 1⟩, fuzz_rat := ⟨0, 1⟩ }
          internal_beam_size := 0
          length_normalize := false
          end_beam_size := 0
          coverage := { old_horizon := 0, use_new := false, stay_threshold := ⟨0, 1⟩ } }
      output_oracle_pfx := ""
      output_one_best := ""
      input_matched := "" }
  confidence_str := ""

/-- The outcome of one parse attempt; independent of the parser state (see
`parseStep_res`). -/
def reqError (req : Request) : Option ReqError := (parseStep initState req).2

/-- The resolved configuration of a successfully parsed request; for
successful parses the parser state does not matter (see
`parseStep_ok_state`). -/
def resolvedConfig (req : Request) : QueryConfig := (parseStep initState req).1.config_

/-! ### The connection supervisor (`RunLoadedService`, lines 280-309) -/

/-- What one connection observes and causes: the full response written back
over the stream (if any), whether `RunDecoder` was dispatched, and the files
the dispatch writes. -/
structure ConnOutcome where
  response : Option String
  decoderRan : Bool
  writes : List String
  deriving DecidableEq

/-- Modelled from the spec: `RunDecoder` (lines 263-278) writes the decode
output to the file named by `output.one_best` and, only when the oracle
prefix is non-empty, to oracle files under that prefix; nothing is sent over
the connection. -/
def decodeTargets (c : QueryConfig) : List String :=
  c.output_one_best :: (if c.output_oracle_pfx == "" then [] else [c.output_oracle_pfx])

/-- One iteration of the accept loop body (lines 289-307): parse the
request; on success run the decoder and reply `"Done"`; on an
`ArgumentParseError` reply with the error's `what()` text; any other
exception is logged only (nothing is written back). -/
def handleConn (s : PState) (req : Request) : PState × ConnOutcome :=
  match parseStep s req with
  | (s', none) => (s', ⟨some "Done", true, decodeTargets s'.config_⟩)
  | (s', some e) =>
    if e.isValidation then (s', ⟨some e.text, false, []⟩)
    else (s', ⟨none, false, []⟩)

/-- The accept loop itself, run over a finite schedule of connections: one
connection is handled fully before the next, and the loop continues no
matter how a connection fares. -/
def serveConns (s : PState) : List Request → List ConnOutcome
  | [] => []
  | r :: rs =>
    let step := handleConn s r
    step.2 :: serveConns step.1 rs

/-! ### Startup (`ParseService`, `LoadAndRunService`, `main`,
lines 217-261 and 311-327) -/

structure LMConfig where
  type : String
  file : String
  order : Nat
  deriving DecidableEq

/-- `ServiceConfig` (lines 223-226).  Note the port member is declared
`short int`: a signed 16-bit integer. -/
structure ServiceConfig where
  lm : LMConfig
  port : Int
  deriving DecidableEq

/-- Startup errors: the `boost::program_options` exceptions,
`ArgumentCountException` from `CheckOnce`, and `NoSuchLMError`
(lines 228-243).  All are uncaught in `main` and abort the process. -/
inductive StartError where
  | unknownOption : String → StartError
  | invalidValue : String → StartError
  | argumentCount : String → Nat → Nat → StartError
  | noSuchLM : String → StartError
  deriving DecidableEq

/-- The keys registered in `ParseService` (lines 247-251). -/
def serviceKeys : List String := ["lm.type", "lm.file", "lm.order", "port"]

/-- The mandatory options array of `ParseService` (line 256). -/
def serviceMandatory : List String := ["lm.file", "lm.order", "port"]

def serviceUnk (args : Request) : Option StartError :=
  (args.find? (fun kv => !serviceKeys.contains kv.1)).map
    (fun kv => StartError.unknownOption kv.1)

/-- Does the supplied startup value convert to the option's declared type?
`lm.type` and `lm.file` are strings; `lm.order` is `unsigned int`; `port`
is `short int`. -/
def serviceConvOk (k v : String) : Bool :=
  match k with
  | "lm.order" => (uintConv v).isSome
  | "port" => (portConv v).isSome
  | _ => true

def serviceFieldOk (args : Request) (k : String) : Bool :=
  match valuesOf args k with
  | [] => true
  | v :: _ => serviceConvOk k v

def serviceFieldsErr (args : Request) : Option StartError :=
  (serviceKeys.find? (fun k => !serviceFieldOk args k)).map StartError.invalidValue

def serviceCheckOnce (args : Request) : Option StartError :=
  (serviceMandatory.find? (fun k => countKey args k != 1)).map
    (fun k => StartError.argumentCount k 1 (countKey args k))

/-- The `ServiceConfig` assembled by `po::notify`: `lm.type` defaults to
`"salm"` (line 248); the other members take the converted supplied value. -/
def theService (args : Request) : ServiceConfig where
  lm :=
    { type := (valuesOf args "lm.type").headD "salm"
      file := (valuesOf args "lm.file").headD ""
      order := match valuesOf args "lm.order" with
        | [] => 0
        | v :: _ => (uintConv v).getD 0 }
  port := match valuesOf args "port" with
    | [] => 0
    | v :: _ => (portConv v).getD 0

/-- `ParseService` (lines 245-261): store/notify, `CheckOnce` over the
mandatory startup options, then the `lm.type` whitelist check that raises
`NoSuchLMError`. -/
def parseService (args : Request) : Except StartError ServiceConfig :=
  match serviceUnk args with
  | some e => .error e
  | none =>
    match serviceFieldsErr args with
    | some e => .error e
    | none =>
      match serviceCheckOnce args with
      | some e => .error e
      | none =>
        let c := theService args
        if c.lm.type == "salm" || c.lm.type == "sri" then .ok c
        else .error (.noSuchLM c.lm.type)

/-- A running server: constructing one stands for loading the model and
opening the listening socket (`LoadAndRunService`, lines 311-319).  An
aborted startup never produces one. -/
structure ServerSession where
  config : ServiceConfig
  outcomes : List ConnOutcome
  deriving DecidableEq

/-- `main` (lines 323-327): parse the startup arguments; only on success
load the model, open the socket and serve connections.  A startup error is
uncaught and aborts before a `ServerSession` exists. -/
def mainRun (args : Request) (conns : List Request) : Except StartError ServerSession :=
  (parseService args).map (fun c => ⟨c, serveConns initState conns⟩)

/-! ### Generic list lemmas -/

theorem find_append_right_false {α} (p : α → Bool) (l : List α) (a : α)
    (h : p a = false) : (l ++ [a]).find? p = l.find? p := by
  induction l with
  | nil => simp [List.find?, h]
  | cons x xs ih => by_cases hx : p x <;> simp [List.find?, hx, ih]

theorem findCongr {α} (p q : α → Bool) :
    ∀ l : List α, (∀ x ∈ l, p x = q x) → l.find? p = l.find? q := by
  intro l
  induction l with
  | nil => intro _; rfl
  | cons x xs ih =>
    intro h
    have hx := h x (List.mem_cons_self x xs)
    by_cases hpx : p x = true
    · rw [List.find?_cons_of_pos _ hpx, List.find?_cons_of_pos _ (hx ▸ hpx)]
    · have hpx' : p x = false := by revert hpx; cases p x <;> simp
      rw [List.find?_cons_of_neg _ (by simp [hpx']),
          List.find?_cons_of_neg _ (by simp [hx ▸ hpx'])]
      exact ih fun y hy => h y (List.mem_cons_of_mem _ hy)

theorem find_first {α} [DecidableEq α] (p : α → Bool) (K : α) :
    ∀ l : List α, K ∈ l → p K = true → (∀ x ∈ l, x ≠ K → p x = false) →
      l.find? p = some K := by
  intro l
  induction l with
  | nil => intro h; cases h
  | cons x xs ih =>
    intro hmem hK hothers
    by_cases hx : x = K
    · subst hx; rw [List.find?_cons_of_pos _ hK]
    · have hpx : p x = false := hothers x (List.mem_cons_self x xs) hx
      rw [List.find?_cons_of_neg _ (by simp [hpx])]
      have hmem' : K ∈ xs := by
        rcases List.mem_cons.mp hmem with h | h
        · exact absurd h.symm hx
        · exact h
      exact ih hmem' hK fun y hy => hothers y (List.mem_cons_of_mem _ hy)

theorem dropWhile_head_false {α} (p : α → Bool) (l : List α) {c : α} {r : List α}
    (h : l.dropWhile p = c :: r) : p c = false := by
  induction l with
  | nil => simp at h
  | cons x xs ih =>
    by_cases hx : p x
    · rw [List.dropWhile_cons_of_pos hx] at h; exact ih h
    · rw [List.dropWhile_cons_of_neg hx] at h
      cases h
      simpa using hx

theorem takeWhile_append_of {α} (p : α → Bool) (t r : List α)
    (ht : ∀ x ∈ t, p x = true) (hr : ∀ c r', r = c :: r' → p c = false) :
    (t ++ r).takeWhile p = t := by
  induction t with
  | nil =>
    cases r with
    | nil => rfl
    | cons c r' => simp [List.takeWhile, hr c r' rfl]
  | cons x xs ih =>
    have hx := ht x (List.mem_cons_self x xs)
    simp only [List.cons_append, List.takeWhile_cons, hx, if_true]
    rw [ih fun y hy => ht y (List.mem_cons_of_mem _ hy)]

theorem dropWhile_append_of {α} (p : α → Bool) (t r : List α)
    (ht : ∀ x ∈ t, p x = true) (hr : ∀ c r', r = c :: r' → p c = false) :
    (t ++ r).dropWhile p = r := by
  induction t with
  | nil =>
    cases r with
    | nil => rfl
    | cons c r' => simp [List.dropWhile, hr c r' rfl]
  | cons x xs ih =>
    have hx := ht x (List.mem_cons_self x xs)
    simp only [List.cons_append, List.dropWhile_cons, hx, if_true]
    exact ih fun y hy => ht y (List.mem_cons_of_mem _ hy)

/-! ### Facts about the request key/value view -/

theorem valuesOf_append_single (req : Request) (k k' : String) (v : String) :
    valuesOf (req ++ [(k, v)]) k' = valuesOf req k' ++ (if k == k' then [v] else []) := by
  unfold valuesOf
  rw [List.filter_append, List.map_append]
  congr 1
  by_cases h : (k == k') = true
  · simp [List.filter, h]
  · have h' : (k == k') = false := by revert h; cases k == k' <;> simp
    simp [List.filter, h']

theorem valuesOf_append_ne (req : Request) (k k' v : String) (h : k ≠ k') :
    valuesOf (req ++ [(k, v)]) k' = valuesOf req k' := by
  rw [valuesOf_append_single]
  simp [h]

theorem countKey_append_ne (req : Request) (k k' v : String) (h : k ≠ k') :
    countKey (req ++ [(k, v)]) k' = countKey req k' := by
  unfold countKey
  rw [valuesOf_append_ne _ _ _ _ h]

/-! ### The decimal numeral roundtrip -/

/-- Value of a little-endian digit list. -/
def unDigs : List Nat → Nat
  | [] => 0
  | d :: ds => d + 10 * unDigs ds

theorem natDigsF_un : ∀ f n, n ≤ f → unDigs (natDigsF f n) = n := by
  intro f
  induction f with
  | zero => intro n h; interval_cases n; rfl
  | succ f ih =>
    intro n h
    by_cases h0 : n = 0
    · subst h0; rfl
    · have hlt : n / 10 < n := Nat.div_lt_self (Nat.pos_of_ne_zero h0) (by omega)
      simp only [natDigsF, h0, if_false, unDigs]
      rw [ih (n / 10) (by omega)]
      omega

theorem natDigsF_lt10 : ∀ f n d, d ∈ natDigsF f n → d < 10 := by
  intro f
  induction f with
  | zero => intro n d h; simp [natDigsF] at h
  | succ f ih =>
    intro n d h
    by_cases h0 : n = 0
    · subst h0; simp [natDigsF] at h
    · simp only [natDigsF, h0, if_false, List.mem_cons] at h
      rcases h with h | h
      · subst h; exact Nat.mod_lt _ (by omega)
      · exact ih _ _ h

theorem natDigsF_ne_nil (f n : Nat) (h0 : n ≠ 0) : natDigsF (f + 1) n ≠ [] := by
  simp [natDigsF, h0]

theorem charVal_digitCh {d : Nat} (h : d < 10) : charVal (digitCh d) = d := by
  interval_cases d <;> rfl

theorem digitCh_isDigit {d : Nat} (h : d < 10) : (digitCh d).isDigit = true := by
  interval_cases d <;> rfl

theorem foldl_rev_digits :
    ∀ (ds : List Nat) (a : Nat),
      List.foldl (fun x d => 10 * x + d) a ds.reverse = a * 10 ^ ds.length + unDigs ds := by
  intro ds
  induction ds with
  | nil => intro a; simp [unDigs]
  | cons d t ih =>
    intro a
    rw [List.reverse_cons, List.foldl_append, ih a]
    simp only [List.foldl, unDigs, List.length_cons]
    ring

theorem foldl_digit_map :
    ∀ (l : List Nat) (a : Nat), (∀ d ∈ l, d < 10) →
      List.foldl (fun x c => 10 * x + charVal c) a (l.map digitCh) =
        List.foldl (fun x d => 10 * x + d) a l := by
  intro l
  induction l with
  | nil => intro a _; rfl
  | cons d t ih =>
    intro a h
    simp only [List.map_cons, List.foldl]
    rw [charVal_digitCh (h d (List.mem_cons_self d t))]
    exact ih _ fun x hx => h x (List.mem_cons_of_mem _ hx)

theorem natChars_all_digits (n : Nat) : (natChars n).all Char.isDigit = true := by
  unfold natChars
  by_cases h0 : n = 0
  · subst h0; rfl
  · simp only [h0, if_false, List.all_eq_true]
    intro c hc
    rw [List.map_reverse, List.mem_reverse, List.mem_map] at hc
    obtain ⟨d, hd, rfl⟩ := hc
    exact digitCh_isDigit (natDigsF_lt10 _ _ _ hd)

theorem natChars_ne_nil (n : Nat) : natChars n ≠ [] := by
  unfold natChars
  by_cases h0 : n = 0
  · subst h0; simp
  · simp only [h0, if_false]
    intro hcontra
    have := natDigsF_ne_nil n n h0
    rcases hd : natDigsF (n + 1) n with _ | ⟨d, ds⟩
    · exact this hd
    · rw [hd] at hcontra; simp at hcontra

theorem parseNat_natChars (n : Nat) : parseNat (natChars n) = some n := by
  by_cases h0 : n = 0
  · subst h0; rfl
  · have hne := natChars_ne_nil n
    have hdig := natChars_all_digits n
    unfold parseNat
    have hEmp : (natChars n).isEmpty = false := by
      rcases h : natChars n with _ | ⟨c, cs⟩
      · exact absurd h hne
      · rfl
    rw [hEmp, hdig]
    simp only [Bool.not_false, Bool.and_self, if_true, Option.some.injEq]
    unfold natChars
    simp only [h0, if_false]
    unfold digitsVal
    rw [foldl_digit_map _ _ (fun d hd => natDigsF_lt10 _ _ _ (List.mem_reverse.mp hd))]
    rw [foldl_rev_digits]
    rw [natDigsF_un (n + 1) n (by omega)]
    ring

/-! ### Character-class facts -/

theorem wsNotNum {c : Char} (h : isWsC c = true) : numChar c = false := by
  simp only [isWsC, Bool.or_eq_true, beq_iff_eq] at h
  rcases h with ((((h | h) | h) | h) | h) | h <;> subst h <;> rfl

theorem expChar_num {c : Char} (h : isExpChar c = true) : numChar c = true := by
  simp only [isExpChar, Bool.or_eq_true, beq_iff_eq] at h
  rcases h with h | h <;> subst h <;> rfl

theorem digit_num {c : Char} (h : c.isDigit = true) : numChar c = true := by
  simp [numChar, h]

theorem mantCore_chars (mm : List Char)
    (h : mm.dropWhile Char.isDigit = [] ∨
         ∃ r2, mm.dropWhile Char.isDigit = '.' :: r2 ∧ r2.all Char.isDigit = true) :
    ∀ c ∈ mm, numChar c = true := by
  intro c hc
  have hsplit : mm.takeWhile Char.isDigit ++ mm.dropWhile Char.isDigit = mm :=
    List.takeWhile_append_dropWhile _ _
  rw [← hsplit] at hc
  rcases List.mem_append.mp hc with hc | hc
  · exact digit_num (List.mem_takeWhile_imp hc)
  · rcases h with h | ⟨r2, h, hall⟩
    · rw [h] at hc; cases hc
    · rw [h] at hc
      rcases List.mem_cons.mp hc with rfl | hc
      · rfl
      · exact digit_num (List.all_eq_true.mp hall c hc)

theorem stripSign_chars (m : List Char) (hcore : ∀ c ∈ stripSign m, numChar c = true) :
    ∀ c ∈ m, numChar c = true := by
  intro c hc
  cases m with
  | nil => cases hc
  | cons c0 m' =>
    by_cases hs : (c0 == '+' || c0 == '-') = true
    · have hstrip : stripSign (c0 :: m') = m' := by simp [stripSign, hs]
      rw [hstrip] at hcore
      rcases List.mem_cons.mp hc with rfl | hc
      · simp only [Bool.or_eq_true, beq_iff_eq] at hs
        rcases hs with rfl | rfl <;> rfl
      · exact hcore c hc
    · have hstrip : stripSign (c0 :: m') = c0 :: m' := by simp [stripSign, hs]
      rw [hstrip] at hcore
      exact hcore c hc

theorem validMant_chars {m : List Char} (h : validMant m = true) :
    ∀ c ∈ m, numChar c = true := by
  apply stripSign_chars
  apply mantCore_chars
  simp only [validMant] at h
  split at h
  · left; assumption
  · right
    simp only [Bool.and_eq_true] at h
    exact ⟨_, by assumption, h.2⟩
  · cases h

theorem validExpo_chars {ex : List Char} (h : validExpo ex = true) :
    ∀ c ∈ ex, numChar c = true := by
  apply stripSign_chars
  intro c hc
  simp only [validExpo, Bool.and_eq_true] at h
  exact digit_num (List.all_eq_true.mp h.2 c hc)

theorem validFloat_chars {cs : List Char} (h : validFloat cs = true) :
    ∀ c ∈ cs, numChar c = true := by
  have hsplit :
      cs.takeWhile (fun c => !isExpChar c) ++ cs.dropWhile (fun c => !isExpChar c) = cs :=
    List.takeWhile_append_dropWhile _ _
  simp only [validFloat] at h
  rcases hd : cs.dropWhile (fun c => !isExpChar c) with _ | ⟨e0, ex⟩ <;> rw [hd] at h
  · intro c hc
    rw [← hsplit, hd, List.append_nil] at hc
    exact validMant_chars h c hc
  · simp only [Bool.and_eq_true] at h
    intro c hc
    rw [← hsplit, hd] at hc
    rcases List.mem_append.mp hc with hc | hc
    · exact validMant_chars h.1 c hc
    · rcases List.mem_cons.mp hc with rfl | hc
      · exact expChar_num (by simpa using dropWhile_head_false _ _ hd)
      · exact validExpo_chars h.2 c hc

/-! ### The confidence scan agrees with whitespace tokenization -/

theorem confScanF_all_valid :
    ∀ fuel : Nat, ∀ cs : List Char, cs.length < fuel →
      (∀ t ∈ wsTokensF fuel cs, validFloat t = true) →
      confScanF fuel cs = (wsTokensF fuel cs, []) := by
  intro fuel
  induction fuel with
  | zero => intro cs h; omega
  | succ f ih =>
    intro cs hlen hval
    by_cases hnil : (cs.dropWhile isWsC).isEmpty = true
    · simp only [confScanF, wsTokensF, hnil, if_true]
    · have heq : (cs.dropWhile isWsC).isEmpty = false := by
        revert hnil; cases (cs.dropWhile isWsC).isEmpty <;> simp
      obtain ⟨c0, cs0, hc⟩ : ∃ c0 cs0, cs.dropWhile isWsC = c0 :: cs0 := by
        rcases h : cs.dropWhile isWsC with _ | ⟨a, b⟩
        · rw [h] at heq; cases heq
        · exact ⟨a, b, rfl⟩
      have hc0 : isWsC c0 = false := by simpa using dropWhile_head_false _ _ hc
      have hw : wsTokensF (f + 1) cs =
          (cs.dropWhile isWsC).takeWhile (fun c => !isWsC c) ::
            wsTokensF f ((cs.dropWhile isWsC).dropWhile (fun c => !isWsC c)) := by
        simp only [wsTokensF, heq]
        rfl
      have htokshape :
          (cs.dropWhile isWsC).takeWhile (fun c => !isWsC c) =
            c0 :: cs0.takeWhile (fun c => !isWsC c) := by
        rw [hc, List.takeWhile_cons, hc0]
        rfl
      have hvt :
          validFloat ((cs.dropWhile isWsC).takeWhile (fun c => !isWsC c)) = true :=
        hval _ (by rw [hw]; exact List.mem_cons_self _ _)
      have htoknum :
          ∀ c ∈ (cs.dropWhile isWsC).takeWhile (fun c => !isWsC c), numChar c = true :=
        validFloat_chars hvt
      have hrestbound :
          ∀ c r', (cs.dropWhile isWsC).dropWhile (fun c => !isWsC c) = c :: r' →
            numChar c = false := by
        intro c r' hr
        exact wsNotNum (by simpa using dropWhile_head_false _ _ hr)
      have hsplit :
          (cs.dropWhile isWsC).takeWhile (fun c => !isWsC c) ++
            (cs.dropWhile isWsC).dropWhile (fun c => !isWsC c) = cs.dropWhile isWsC :=
        List.takeWhile_append_dropWhile _ _
      have hrun : (cs.dropWhile isWsC).takeWhile numChar =
          (cs.dropWhile isWsC).takeWhile (fun c => !isWsC c) := by
        conv_lhs => rw [← hsplit]
        exact takeWhile_append_of _ _ _ htoknum hrestbound
      have hdrop : (cs.dropWhile isWsC).dropWhile numChar =
          (cs.dropWhile isWsC).dropWhile (fun c => !isWsC c) := by
        conv_lhs => rw [← hsplit]
        exact dropWhile_append_of _ _ _ htoknum hrestbound
      have hlcs : (cs.dropWhile isWsC).length ≤ cs.length :=
        (List.dropWhile_sublist _).length_le
      have hlsplit :
          ((cs.dropWhile isWsC).takeWhile (fun c => !isWsC c)).length +
            ((cs.dropWhile isWsC).dropWhile (fun c => !isWsC c)).length =
          (cs.dropWhile isWsC).length := by
        rw [← List.length_append, hsplit]
      have htokpos :
          0 < ((cs.dropWhile isWsC).takeWhile (fun c => !isWsC c)).length := by
        rw [htokshape]; simp
      have hrlen :
          ((cs.dropWhile isWsC).dropWhile (fun c => !isWsC c)).length < f := by
        omega
      have hvrest :
          ∀ t ∈ wsTokensF f ((cs.dropWhile isWsC).dropWhile (fun c => !isWsC c)),
            validFloat t = true :=
        fun t ht => hval t (by rw [hw]; exact List.mem_cons_of_mem _ ht)
      have hrec := ih _ hrlen hvrest
      have htokEmp :
          ((cs.dropWhile isWsC).takeWhile (fun c => !isWsC c)).isEmpty = false := by
        rw [htokshape]; rfl
      rw [hw]
      simp only [confScanF, heq, hrun, hdrop, hrec, hvt, htokEmp]
      simp

theorem dropWhile_of_all {α} (p : α → Bool) (l : List α) (h : l.all p = true) :
    l.dropWhile p = [] := by
  induction l with
  | nil => rfl
  | cons x xs ih =>
    simp only [List.all_cons, Bool.and_eq_true] at h
    rw [List.dropWhile_cons_of_pos h.1]
    exact ih h.2

theorem confScan_ws_only {cs : List Char} (h : cs.all isWsC = true) :
    confScan cs = ([], []) ∧ wsTokens cs = [] := by
  have hd : cs.dropWhile isWsC = [] := dropWhile_of_all _ _ h
  constructor <;> simp [confScan, wsTokens, confScanF, wsTokensF, hd]

/-- The top-level form of the scan agreement: if every whitespace token of
the confidence string is a valid literal, the extraction loop consumes the
whole string and collects exactly those tokens. -/
theorem confScan_all_valid {cs : List Char}
    (h : ∀ t ∈ wsTokens cs, validFloat t = true) :
    confScan cs = (wsTokens cs, []) :=
  confScanF_all_valid _ cs (by omega) h

/-! ### Dissecting `po::store` and `CheckOnce` -/

theorem vmField_nil {α : Type} (conv : String → Option α) (dflt : Option α)
    (req : Request) (k : String) (h : valuesOf req k = []) :
    vmField conv dflt req k = dflt := by
  simp [vmField, h]

theorem vmField_cons {α : Type} (conv : String → Option α) (dflt : Option α)
    (req : Request) (k v : String) (rest : List String)
    (h : valuesOf req k = v :: rest) :
    vmField conv dflt req k = conv v := by
  simp [vmField, h]

theorem count_one_single {req : Request} {k : String} (h : countKey req k = 1) :
    ∃ v, valuesOf req k = [v] := by
  unfold countKey at h
  exact List.length_eq_one.mp h

theorem storeVM_ok_eq {req : Request} {vm : VM} (h : storeVM req = .ok vm) :
    storeUnk req = none ∧ fieldsErr req = none ∧ vm = theVM req := by
  unfold storeVM at h
  rcases hU : storeUnk req with _ | e
  · rw [hU] at h
    rcases hF : fieldsErr req with _ | e
    · rw [hF] at h
      cases h
      exact ⟨rfl, rfl, rfl⟩
    · rw [hF] at h; cases h
  · rw [hU] at h; cases h

theorem checkOnce_none_counts {req : Request} (h : checkOnce req = none) :
    ∀ k ∈ mandatoryOptions, countKey req k = 1 := by
  intro k hk
  unfold checkOnce at h
  rw [Option.map_eq_none'] at h
  have := List.find?_eq_none.mp h k hk
  simpa using this

theorem fieldsErr_none_ok {req : Request} (h : fieldsErr req = none) :
    ∀ k ∈ declaredKeys, fieldOk req k = true := by
  intro k hk
  unfold fieldsErr at h
  rw [Option.map_eq_none'] at h
  have := List.find?_eq_none.mp h k hk
  simpa using this

theorem convOk_of_fieldOk {req : Request} {k : String} (h : fieldOk req k = true) :
    ∀ v rest, valuesOf req k = v :: rest → convOk k v = true := by
  intro v rest hv
  unfold fieldOk at h
  rw [hv] at h
  exact h

theorem vmField_isSome {α : Type} (conv : String → Option α) (d : α)
    (req : Request) (k : String)
    (hconv : ∀ v rest, valuesOf req k = v :: rest → (conv v).isSome = true) :
    (vmField conv (some d) req k).isSome = true := by
  rcases hv : valuesOf req k with _ | ⟨v, rest⟩
  · rw [vmField_nil _ _ _ _ hv]; rfl
  · rw [vmField_cons _ _ _ _ _ _ hv]; exact hconv v rest hv

theorem vmField_isSome_mand {α : Type} (conv : String → Option α)
    (req : Request) (k : String) (hc : countKey req k = 1)
    (hconv : ∀ v rest, valuesOf req k = v :: rest → (conv v).isSome = true) :
    (vmField conv none req k).isSome = true := by
  obtain ⟨v, hv⟩ := count_one_single hc
  rw [vmField_cons _ _ _ _ _ _ hv]
  exact hconv v [] hv

/-- Every entry of the `variables_map` is populated after a parse in which
the conversions succeeded and all mandatory keys were supplied. -/
def vmTotal (vm : VM) : Prop :=
  vm.score_lm.isSome = true ∧ vm.score_alignment.isSome = true ∧
  vm.score_ngram.isSome = true ∧ vm.score_ngram_base.isSome = true ∧
  vm.score_overlap.isSome = true ∧ vm.score_fuzz.isSome = true ∧
  vm.beam_size.isSome = true ∧ vm.length_normalize.isSome = true ∧
  vm.output_nbest.isSome = true ∧ vm.horizon_radius.isSome = true ∧
  vm.horizon_new.isSome = true ∧ vm.horizon_threshold.isSome = true ∧
  vm.output_oracle_pfx.isSome = true ∧ vm.output_one_best.isSome = true ∧
  vm.input_matched.isSome = true ∧ vm.input_confidence.isSome = true ∧
  vm.align_pick_best.isSome = true ∧ vm.align_transitive.isSome = true

theorem vm_all_some {req : Request} (hF : fieldsErr req = none)
    (hC : checkOnce req = none) : vmTotal (theVM req) := by
  have hok := fieldsErr_none_ok hF
  have hcnt := checkOnce_none_counts hC
  refine ⟨?_, ?_, ?_, ?_, ?_, ?_, ?_, ?_, ?_, ?_, ?_, ?_, ?_, ?_, ?_, ?_, ?_, ?_⟩ <;>
    simp only [theVM]
  · exact vmField_isSome_mand _ _ _ (hcnt _ (by decide))
      (fun v rest hv => convOk_of_fieldOk (hok _ (by decide)) v rest hv)
  · exact vmField_isSome_mand _ _ _ (hcnt _ (by decide))
      (fun v rest hv => convOk_of_fieldOk (hok _ (by decide)) v rest hv)
  · exact vmField_isSome_mand _ _ _ (hcnt _ (by decide))
      (fun v rest hv => convOk_of_fieldOk (hok _ (by decide)) v rest hv)
  · exact vmField_isSome _ _ _ _
      (fun v rest hv => convOk_of_fieldOk (hok _ (by decide)) v rest hv)
  · exact vmField_isSome_mand _ _ _ (hcnt _ (by decide))
      (fun v rest hv => convOk_of_fieldOk (hok _ (by decide)) v rest hv)
  · exact vmField_isSome _ _ _ _
      (fun v rest hv => convOk_of_fieldOk (hok _ (by decide)) v rest hv)
  · exact vmField_isSome _ _ _ _
      (fun v rest hv => convOk_of_fieldOk (hok _ (by decide)) v rest hv)
  · exact vmField_isSome _ _ _ _
      (fun v rest hv => convOk_of_fieldOk (hok _ (by decide)) v rest hv)
  · exact vmField_isSome _ _ _ _
      (fun v rest hv => convOk_of_fieldOk (hok _ (by decide)) v rest hv)
  · exact vmField_isSome _ _ _ _
      (fun v rest hv => convOk_of_fieldOk (hok _ (by decide)) v rest hv)
  · exact vmField_isSome _ _ _ _
      (fun v rest hv => convOk_of_fieldOk (hok _ (by decide)) v rest hv)
  · exact vmField_isSome _ _ _ _
      (fun v rest hv => convOk_of_fieldOk (hok _ (by decide)) v rest hv)
  · exact vmField_isSome _ _ _ _ (fun v rest hv => rfl)
  · exact vmField_isSome_mand _ _ _ (hcnt _ (by decide)) (fun v rest hv => rfl)
  · exact vmField_isSome_mand _ _ _ (hcnt _ (by decide)) (fun v rest hv => rfl)
  · exact vmField_isSome_mand _ _ _ (hcnt _ (by decide)) (fun v rest hv => rfl)
  · exact vmField_isSome _ _ _ _
      (fun v rest hv => convOk_of_fieldOk (hok _ (by decide)) v rest hv)
  · exact vmField_isSome _ _ _ _
      (fun v rest hv => convOk_of_fieldOk (hok _ (by decide)) v rest hv)

theorem theVM_input_conf {req : Request} {v : String}
    (hv : valuesOf req "input.confidence" = [v]) :
    (theVM req).input_confidence = some v := by
  simp only [theVM]
  rw [vmField_cons _ _ _ _ _ _ hv]

/-! ### The parse outcome does not depend on the parser state -/

theorem parseStep_res_indep (s s' : PState) (req : Request) :
    (parseStep s req).2 = (parseStep s' req).2 := by
  rcases hS : storeVM req with e | vm
  · simp [parseStep, hS]
  · obtain ⟨hU, hF, hvm⟩ := storeVM_ok_eq hS
    rcases hC : checkOnce req with _ | e
    · obtain ⟨v, hv⟩ :=
        count_one_single (checkOnce_none_counts hC "input.confidence" (by decide))
      have hic : vm.input_confidence = some v := by rw [hvm]; exact theVM_input_conf hv
      have e1 : (vmNotify s vm).confidence_str = v := by simp [vmNotify, hic]
      have e2 : (vmNotify s' vm).confidence_str = v := by simp [vmNotify, hic]
      simp only [parseStep, hS, e1, e2, hC]
      by_cases hsc : (confScan v.data).2.isEmpty = true <;> simp [hsc]
    · simp [parseStep, hS, hC]

/-- The parse outcome of `QueryConfigParser::Parse` depends only on the
request text, never on what previous connections left in the parser. -/
theorem parseStep_res (s : PState) (req : Request) :
    (parseStep s req).2 = reqError req :=
  parseStep_res_indep s initState req

theorem parseStep_state_indep (s s' : PState) (req : Request)
    (h : reqError req = none) :
    (parseStep s req).1 = (parseStep s' req).1 := by
  have h2 : (parseStep s req).2 = none := by rw [parseStep_res]; exact h
  rcases hS : storeVM req with e | vm
  · rw [parseStep_res s req] at h2
    unfold reqError at h2
    simp [parseStep, hS] at h2
  · obtain ⟨hU, hF, hvm⟩ := storeVM_ok_eq hS
    rcases hC : checkOnce req with _ | e
    · obtain ⟨v, hv⟩ :=
        count_one_single (checkOnce_none_counts hC "input.confidence" (by decide))
      have hic : vm.input_confidence = some v := by rw [hvm]; exact theVM_input_conf hv
      have e1 : (vmNotify s vm).confidence_str = v := by simp [vmNotify, hic]
      have e2 : (vmNotify s' vm).confidence_str = v := by simp [vmNotify, hic]
      have h2' : (parseStep s req).2 = none := h2
      simp only [parseStep, hS, hC, e1] at h2'
      obtain ⟨t1, t2, t3, t4, t5, t6, t7, t8, t9, t10, t11, t12, t13, t14,
        t15, t16, t17, t18⟩ := hvm ▸ vm_all_some hF hC
      obtain ⟨a1, f1⟩ := Option.isSome_iff_exists.mp t1
      obtain ⟨a2, f2⟩ := Option.isSome_iff_exists.mp t2
      obtain ⟨a3, f3⟩ := Option.isSome_iff_exists.mp t3
      obtain ⟨a4, f4⟩ := Option.isSome_iff_exists.mp t4
      obtain ⟨a5, f5⟩ := Option.isSome_iff_exists.mp t5
      obtain ⟨a6, f6⟩ := Option.isSome_iff_exists.mp t6
      obtain ⟨a7, f7⟩ := Option.isSome_iff_exists.mp t7
      obtain ⟨a8, f8⟩ := Option.isSome_iff_exists.mp t8
      obtain ⟨a9, f9⟩ := Option.isSome_iff_exists.mp t9
      obtain ⟨a10, f10⟩ := Option.isSome_iff_exists.mp t10
      obtain ⟨a11, f11⟩ := Option.isSome_iff_exists.mp t11
      obtain ⟨a12, f12⟩ := Option.isSome_iff_exists.mp t12
      obtain ⟨a13, f13⟩ := Option.isSome_iff_exists.mp t13
      obtain ⟨a14, f14⟩ := Option.isSome_iff_exists.mp t14
      obtain ⟨a15, f15⟩ := Option.isSome_iff_exists.mp t15
      obtain ⟨a17, f17⟩ := Option.isSome_iff_exists.mp t17
      obtain ⟨a18, f18⟩ := Option.isSome_iff_exists.mp t18
      simp only [parseStep, hS, hC, e1, e2]
      by_cases hsc : (confScan v.data).2 = []
      · simp [vmNotify, f1, f2, f3, f4, f5, f6, f7, f8, f9, f10, f11, f12,
          f13, f14, f15, hic, f17, f18, hsc]
      · simp [hsc] at h2'
    · rw [parseStep_res s req] at h2
      unfold reqError at h2
      simp [parseStep, hS, hC] at h2

/-! ### Example requests (used by the concrete witnesses) -/

/-- The well-formed request of the spec's §8 scenario: all seven mandatory
keys supplied once, no optional key. -/
def exampleReq : Request :=
  [("score.lm", "1.0"), ("score.alignment", "1.0"), ("score.ngram", "1.0"),
   ("score.overlap", "1.0"), ("output.one_best", "/tmp/out.txt"),
   ("input.matched_file", "/tmp/in.txt"), ("input.confidence", "0.9 0.8 0.95")]

/-- The same request with a malformed confidence string (§8's second
scenario). -/
def exampleBadConf : Request :=
  [("score.lm", "1.0"), ("score.alignment", "1.0"), ("score.ngram", "1.0"),
   ("score.overlap", "1.0"), ("output.one_best", "/tmp/out.txt"),
   ("input.matched_file", "/tmp/in.txt"), ("input.confidence", "0.9 abc")]

/-- The scenario request with `score.lm` omitted. -/
def exampleNoLm : Request :=
  [("score.alignment", "1.0"), ("score.ngram", "1.0"),
   ("score.overlap", "1.0"), ("output.one_best", "/tmp/out.txt"),
   ("input.matched_file", "/tmp/in.txt"), ("input.confidence", "0.9 0.8 0.95")]

/-- A parser state dirtied by a previous failed connection. -/
def dirtyState : PState := (handleConn initState exampleBadConf).1

theorem bool_true_of_ne_false {b : Bool} (h : b ≠ false) : b = true := by
  cases b
  · exact absurd rfl h
  · rfl

/-! ### C2 -/

/-- C2: for every confidence string that tokenizes into whitespace-separated
numeric literals, `ParseConfidences` returns exactly that ordered sequence of
literals; whenever it fails, the raised `BadConfidence` carries the raw
string, and some whitespace token of the string is not a numeric literal. -/
theorem ParseConfidences_spec :
    (∀ s : String, (∀ t ∈ wsTokens s.data, validFloat t = true) →
        parseConfidences s = .ok (wsTokens s.data)) ∧
    (∀ s : String, (parseConfidences s).isOk = false →
        parseConfidences s = .error s ∧
          ∃ t ∈ wsTokens s.data, validFloat t = false) := by
  constructor
  · intro s h
    unfold parseConfidences
    rw [confScan_all_valid h]
    rfl
  · intro s h
    constructor
    · unfold parseConfidences at h ⊢
      by_cases hsc : (confScan s.data).2.isEmpty = true
      · rw [if_pos hsc] at h; exact Bool.noConfusion h
      · rw [if_neg hsc]
    · by_contra hex
      push_neg at hex
      have hall : ∀ t ∈ wsTokens s.data, validFloat t = true :=
        fun t ht => bool_true_of_ne_false (hex t ht)
      unfold parseConfidences at h
      rw [confScan_all_valid hall] at h
      exact Bool.noConfusion h

/-- C2 witness: the scan of `"0.9 0.8 0.95"` yields exactly its three
tokens. -/
theorem ParseConfidences_spec_w :
    parseConfidences "0.9 0.8 0.95" = .ok (wsTokens "0.9 0.8 0.95".data) ∧
    (parseConfidences "0.1 0.2 x" = .error "0.1 0.2 x" ∧
      ∃ t ∈ wsTokens "0.1 0.2 x".data, validFloat t = false) :=
  ⟨ParseConfidences_spec.1 "0.9 0.8 0.95" (by decide),
   ParseConfidences_spec.2 "0.1 0.2 x" (by decide)⟩

/-! ### C10 -/

/-- C10: an empty or all-whitespace confidence string parses without error
to the empty vector; `BadConfidence` is raised exactly when the scan stops
with unconsumed residue, and then some whitespace token of the string is not
a numeric literal. -/
theorem ParseConfidences_empty :
    (∀ s : String, s.data.all isWsC = true → parseConfidences s = .ok []) ∧
    (∀ s : String, (parseConfidences s).isOk = false ↔ (confScan s.data).2 ≠ []) ∧
    (∀ s : String, (confScan s.data).2 ≠ [] →
      ∃ t ∈ wsTokens s.data, validFloat t = false) := by
  refine ⟨?_, ?_, ?_⟩
  · intro s h
    unfold parseConfidences
    rw [(confScan_ws_only h).1]
    rfl
  · intro s
    unfold parseConfidences
    by_cases hsc : (confScan s.data).2.isEmpty = true
    · rw [if_pos hsc]
      have hnil : (confScan s.data).2 = [] := by simpa using hsc
      simp [Except.isOk, Except.toBool, hnil]
    · rw [if_neg hsc]
      have hne : (confScan s.data).2 ≠ [] := fun hnil => hsc (by simp [hnil])
      simp [Except.isOk, Except.toBool, hne]
  · intro s h
    by_contra hex
    push_neg at hex
    have hall : ∀ t ∈ wsTokens s.data, validFloat t = true :=
      fun t ht => bool_true_of_ne_false (hex t ht)
    rw [confScan_all_valid hall] at h
    exact h rfl

/-- C10 witness: empty and whitespace-only strings parse to the empty
vector; `"0.9 abc"` stops early. -/
theorem ParseConfidences_empty_w :
    parseConfidences "" = .ok [] ∧ parseConfidences "  " = .ok [] ∧
    ((parseConfidences "0.9 abc").isOk = false ↔ (confScan "0.9 abc".data).2 ≠ []) :=
  ⟨ParseConfidences_empty.1 "" (by decide),
   ParseConfidences_empty.1 "  " (by decide),
   ParseConfidences_empty.2.1 "0.9 abc"⟩

/-! ### C5 -/

/-- C5: after every successful `Parse`, the horizon radius stored in the
input sub-configuration equals the one stored in the decoder configuration
(the copy at Server.cc line 210). -/
theorem Parse_horizon_sync (s : PState) (req : Request) (h : reqError req = none) :
    (parseStep s req).1.config_.text.horizon_radius =
      (parseStep s req).1.config_.decoder.coverage.old_horizon := by
  have h2 : (parseStep s req).2 = none := by rw [parseStep_res]; exact h
  rcases hS : storeVM req with e | vm
  · simp [parseStep, hS] at h2
  · rcases hC : checkOnce req with _ | e
    · simp only [parseStep, hS, hC] at h2 ⊢
      by_cases hsc : (confScan (vmNotify s vm).confidence_str.data).2.isEmpty = true
      · simp [hsc]
      · simp [hsc] at h2
    · simp [parseStep, hS, hC] at h2

/-- C5 witness: on the §8 scenario request both copies are 5. -/
theorem Parse_horizon_sync_w :
    (parseStep initState exampleReq).1.config_.text.horizon_radius =
      (parseStep initState exampleReq).1.config_.decoder.coverage.old_horizon :=
  Parse_horizon_sync initState exampleReq (by decide)

/-! ### C7 -/

/-- C7: a validated, decoded request is answered with exactly `"Done"`;
the decode output goes to the file named by `output.one_best` and, only when
the oracle prefix is non-empty, to oracle files — never over the
connection. -/
theorem RunLoadedService_done (s : PState) (req : Request) (h : reqError req = none) :
    (handleConn s req).2.response = some "Done" ∧
    (handleConn s req).2.decoderRan = true ∧
    (handleConn s req).2.writes =
      (parseStep s req).1.config_.output_one_best ::
        (if (parseStep s req).1.config_.output_oracle_pfx == "" then []
         else [(parseStep s req).1.config_.output_oracle_pfx]) := by
  have h2 : (parseStep s req).2 = none := by rw [parseStep_res]; exact h
  have hps : parseStep s req = ((parseStep s req).1, none) := by
    rw [← h2]
  unfold handleConn
  rw [hps]
  exact ⟨rfl, rfl, rfl⟩

/-- C7 witness: the §8 scenario request is answered `"Done"` and writes
`/tmp/out.txt` only (oracle disabled). -/
theorem RunLoadedService_done_w :
    (handleConn initState exampleReq).2.response = some "Done" ∧
    (handleConn initState exampleReq).2.decoderRan = true ∧
    (handleConn initState exampleReq).2.writes =
      (parseStep initState exampleReq).1.config_.output_one_best ::
        (if (parseStep initState exampleReq).1.config_.output_oracle_pfx == "" then []
         else [(parseStep initState exampleReq).1.config_.output_oracle_pfx]) :=
  RunLoadedService_done initState exampleReq (by decide)

/-! ### C9 -/

/-- C9: the outcome of parsing a request does not depend on the reused
parser's previous state, and on success the entire resolved parser state
(configuration and confidence vector) is the same from any two starting
states: nothing leaks from earlier connections into a successfully resolved
configuration. -/
theorem Parser_no_leak (s₁ s₂ : PState) (req : Request) :
    (parseStep s₁ req).2 = (parseStep s₂ req).2 ∧
    ((parseStep s₁ req).2 = none → (parseStep s₁ req).1 = (parseStep s₂ req).1) := by
  refine ⟨parseStep_res_indep s₁ s₂ req, fun h => ?_⟩
  refine parseStep_state_indep s₁ s₂ req ?_
  rw [← parseStep_res s₁ req]
  exact h

/-- C9 witness: parsing the §8 scenario request from a dirtied parser state
and from the fresh one agree. -/
theorem Parser_no_leak_w :
    (parseStep dirtyState exampleReq).2 = (parseStep initState exampleReq).2 ∧
    (parseStep dirtyState exampleReq).1 = (parseStep initState exampleReq).1 :=
  ⟨(Parser_no_leak dirtyState initState exampleReq).1,
   (Parser_no_leak dirtyState initState exampleReq).2 (by decide)⟩

/-! ### C1 -/

/-- C1: a request that omits a mandatory key or supplies it twice never
reaches `RunDecoder` and always fails its parse; when the rest of the
request is well-formed the raised error is `ArgumentCountException`
identifying a violated mandatory key, and when the given key is the only
violated one the exception identifies exactly that key with its count. -/
theorem CheckOnce_mandatory (s : PState) (req : Request) (K : String)
    (hK : K ∈ mandatoryOptions) (hcnt : countKey req K ≠ 1) :
    ((handleConn s req).2.decoderRan = false ∧ (parseStep s req).2 ≠ none) ∧
    (storeUnk req = none → fieldsErr req = none →
      ∃ K', K' ∈ mandatoryOptions ∧ countKey req K' ≠ 1 ∧
        (parseStep s req).2 = some (.argumentCount K' 1 (countKey req K'))) ∧
    ((∀ K₂ ∈ mandatoryOptions, K₂ ≠ K → countKey req K₂ = 1) →
      storeUnk req = none → fieldsErr req = none →
      (parseStep s req).2 = some (.argumentCount K 1 (countKey req K))) := by
  have hrefuse : (parseStep s req).2 ≠ none := by
    intro habs
    rcases hS : storeVM req with e | vm
    · simp [parseStep, hS] at habs
    · rcases hC : checkOnce req with _ | e
      · exact hcnt (checkOnce_none_counts hC K hK)
      · simp [parseStep, hS, hC] at habs
  refine ⟨⟨?_, hrefuse⟩, ?_, ?_⟩
  · obtain ⟨e, he⟩ := Option.ne_none_iff_exists'.mp hrefuse
    have hps : parseStep s req = ((parseStep s req).1, some e) := by rw [← he]
    unfold handleConn
    rw [hps]
    by_cases hval : e.isValidation = true <;> simp [hval]
  · intro hU hF
    have hS : storeVM req = .ok (theVM req) := by
      unfold storeVM; rw [hU, hF]
    rcases hfind : mandatoryOptions.find? (fun k => countKey req k != 1) with _ | K'
    · exfalso
      have := List.find?_eq_none.mp hfind K hK
      simp [bne_iff_ne] at this
      exact hcnt this
    · have hK' : K' ∈ mandatoryOptions := List.mem_of_find?_eq_some hfind
      have hcnt' : countKey req K' ≠ 1 := by
        have := List.find?_some hfind
        simpa [bne_iff_ne] using this
      have hC : checkOnce req = some (.argumentCount K' 1 (countKey req K')) := by
        unfold checkOnce; rw [hfind]; rfl
      exact ⟨K', hK', hcnt', by simp [parseStep, hS, hC]⟩
  · intro hothers hU hF
    have hS : storeVM req = .ok (theVM req) := by
      unfold storeVM; rw [hU, hF]
    have hfind : mandatoryOptions.find? (fun k => countKey req k != 1) = some K := by
      refine find_first _ K mandatoryOptions hK ?_ ?_
      · simpa [bne_iff_ne] using hcnt
      · intro x hx hxK
        simp [bne_iff_ne]
        exact hothers x hx hxK
    have hC : checkOnce req = some (.argumentCount K 1 (countKey req K)) := by
      unfold checkOnce; rw [hfind]; rfl
    simp [parseStep, hS, hC]

/-- C1 witness: the scenario request with `score.lm` omitted is rejected
with an `ArgumentCountException` naming `score.lm`, and the decoder is not
dispatched. -/
theorem CheckOnce_mandatory_w :
    (handleConn initState exampleNoLm).2.decoderRan = false ∧
    (parseStep initState exampleNoLm).2 =
      some (.argumentCount "score.lm" 1 (countKey exampleNoLm "score.lm")) :=
  ⟨(CheckOnce_mandatory initState exampleNoLm "score.lm" (by decide) (by decide)).1.1,
   (CheckOnce_mandatory initState exampleNoLm "score.lm" (by decide) (by decide)).2.2
     (by decide) (by decide) (by decide)⟩

/-! ### C3 -/

/-- C3: the accept loop produces one outcome per connection (no failure
terminates it); a connection whose request fails validation gets exactly the
error's diagnostic text as its entire response, and the next well-formed
connection is still accepted and processed correctly (answered `"Done"`,
decoder dispatched on its own resolved configuration). -/
theorem RunLoadedService_isolation :
    (∀ (s : PState) (rs : List Request), (serveConns s rs).length = rs.length) ∧
    (∀ (s : PState) (r₁ r₂ : Request) (rs : List Request) (e : ReqError),
      reqError r₁ = some e → e.isValidation = true → reqError r₂ = none →
      ∃ rest, serveConns s (r₁ :: r₂ :: rs) =
        ⟨some e.text, false, []⟩ ::
          ⟨some "Done", true, decodeTargets (resolvedConfig r₂)⟩ :: rest) := by
  constructor
  · intro s rs
    induction rs generalizing s with
    | nil => rfl
    | cons r rs ih => simp [serveConns, ih]
  · intro s r₁ r₂ rs e h1 hval h2
    have hp1 : (parseStep s r₁).2 = some e := by rw [parseStep_res]; exact h1
    have hps1 : parseStep s r₁ = ((parseStep s r₁).1, some e) := by rw [← hp1]
    have hout1 : handleConn s r₁ = ((parseStep s r₁).1, ⟨some e.text, false, []⟩) := by
      unfold handleConn
      rw [hps1]
      simp [hval]
    have hp2 : (parseStep (parseStep s r₁).1 r₂).2 = none := by
      rw [parseStep_res]; exact h2
    have hps2 : parseStep (parseStep s r₁).1 r₂ =
        ((parseStep (parseStep s r₁).1 r₂).1, none) := by rw [← hp2]
    have hout2 : handleConn (parseStep s r₁).1 r₂ =
        ((parseStep (parseStep s r₁).1 r₂).1,
          ⟨some "Done", true,
            decodeTargets (parseStep (parseStep s r₁).1 r₂).1.config_⟩) := by
      unfold handleConn
      rw [hps2]
    have hcfg : (parseStep (parseStep s r₁).1 r₂).1.config_ = resolvedConfig r₂ := by
      unfold resolvedConfig
      rw [parseStep_state_indep (parseStep s r₁).1 initState r₂ h2]
    refine ⟨serveConns (parseStep (parseStep s r₁).1 r₂).1 rs, ?_⟩
    simp [serveConns, hout1, hout2, hcfg]

/-- C3 witness: a bad-confidence connection gets the raw confidence string
back as its whole response, and the following scenario request is still
served with `"Done"`. -/
theorem RunLoadedService_isolation_w :
    ∃ rest, serveConns initState [exampleBadConf, exampleReq] =
      ⟨some (ReqError.badConfidence "0.9 abc").text, false, []⟩ ::
        ⟨some "Done", true, decodeTargets (resolvedConfig exampleReq)⟩ :: rest :=
  RunLoadedService_isolation.2 initState exampleBadConf exampleReq []
    (.badConfidence "0.9 abc") (by decide) (by decide) (by decide)

/-! ### C4: defaults machinery -/

theorem fieldOk_valuesOf {r₁ r₂ : Request} {k : String}
    (h : valuesOf r₁ k = valuesOf r₂ k) : fieldOk r₁ k = fieldOk r₂ k := by
  unfold fieldOk
  rw [h]

theorem vmField_valuesOf {α : Type} (conv : String → Option α) (dflt : Option α)
    {r₁ r₂ : Request} {k : String} (h : valuesOf r₁ k = valuesOf r₂ k) :
    vmField conv dflt r₁ k = vmField conv dflt r₂ k := by
  unfold vmField
  rw [h]

theorem storeUnk_append_declared (req : Request) (k v : String)
    (h : k ∈ declaredKeys) :
    storeUnk (req ++ [(k, v)]) = storeUnk req := by
  unfold storeUnk
  rw [find_append_right_false _ _ _ (by simp [h])]

theorem fieldsErr_append (req : Request) (k d : String)
    (hv : valuesOf req k = []) (hc : convOk k d = true) :
    fieldsErr (req ++ [(k, d)]) = fieldsErr req := by
  unfold fieldsErr
  congr 1
  apply findCongr
  intro x _
  by_cases hxk : x = k
  · subst hxk
    have h1 : valuesOf (req ++ [(x, d)]) x = [d] := by
      rw [valuesOf_append_single, hv]
      simp
    have f1 : fieldOk (req ++ [(x, d)]) x = true := by
      unfold fieldOk
      rw [h1]
      exact hc
    have f2 : fieldOk req x = true := by unfold fieldOk; rw [hv]
    rw [f1, f2]
  · rw [fieldOk_valuesOf (valuesOf_append_ne _ _ _ _ (Ne.symm hxk))]

theorem checkOnce_append_nonmand (req : Request) (k v : String)
    (h : k ∉ mandatoryOptions) :
    checkOnce (req ++ [(k, v)]) = checkOnce req := by
  unfold checkOnce
  have hcnt : ∀ x ∈ mandatoryOptions, countKey (req ++ [(k, v)]) x = countKey req x :=
    fun x hx => countKey_append_ne _ _ _ _ (fun he => h (he ▸ hx))
  have hfind :
      (mandatoryOptions.find? fun x => countKey (req ++ [(k, v)]) x != 1) =
        mandatoryOptions.find? fun x => countKey req x != 1 :=
    findCongr _ _ _ fun x hx => by rw [hcnt x hx]
  rw [hfind]
  rcases hr : mandatoryOptions.find? (fun x => countKey req x != 1) with _ | k₀
  · rfl
  · simp [hcnt k₀ (List.mem_of_find?_eq_some hr)]

theorem parseStep_congr (s : PState) (r₁ r₂ : Request)
    (hU : storeUnk r₁ = storeUnk r₂) (hF : fieldsErr r₁ = fieldsErr r₂)
    (hV : theVM r₁ = theVM r₂) (hC : checkOnce r₁ = checkOnce r₂) :
    parseStep s r₁ = parseStep s r₂ := by
  have hS : storeVM r₁ = storeVM r₂ := by unfold storeVM; rw [hU, hF, hV]
  simp only [parseStep, hS, hC]

theorem vmField_append_ne {α : Type} (conv : String → Option α) (dflt : Option α)
    (req : Request) {k k' : String} (v : String) (h : k ≠ k') :
    vmField conv dflt (req ++ [(k, v)]) k' = vmField conv dflt req k' :=
  vmField_valuesOf conv dflt (valuesOf_append_ne req k k' v h)

theorem vmField_append_this {α : Type} (conv : String → Option α) (dflt : Option α)
    (req : Request) {k : String} (d : String)
    (hv : valuesOf req k = []) (h : conv d = dflt) :
    vmField conv dflt (req ++ [(k, d)]) k = vmField conv dflt req k := by
  have h1 : valuesOf (req ++ [(k, d)]) k = [d] := by
    rw [valuesOf_append_single, hv]
    simp
  rw [vmField_cons _ _ _ _ _ _ h1, vmField_nil _ _ _ _ hv, h]

/-- The optional request keys named by the claim, each with the canonical
text of its declared default (Server.cc lines 124-175). -/
def defaultsTable : List (String × String) :=
  [("beam_size", "500"), ("length_normalize", "true"), ("output.nbest", "1"),
   ("horizon.radius", "5"), ("horizon.new", "false"), ("horizon.threshold", "0.8"),
   ("output.oracle_prefix", ""), ("align.pick_best", "false"),
   ("align.transitive", "false"), ("score.fuzz.ratio", "0.0")]

/-- What "the resolved configuration holds the declared default for key `k`"
means, field by field. -/
def defaultHolds : String → PState → Prop := fun k s =>
  match k with
  | "beam_size" => s.config_.decoder.internal_beam_size = 500
  | "length_normalize" => s.config_.decoder.length_normalize = true
  | "output.nbest" => s.config_.decoder.end_beam_size = 1
  | "horizon.radius" => s.config_.decoder.coverage.old_horizon = 5
  | "horizon.new" => s.config_.decoder.coverage.use_new = false
  | "horizon.threshold" => s.config_.decoder.coverage.stay_threshold = decLit "0.8"
  | "output.oracle_prefix" => s.config_.output_oracle_pfx = ""
  | "align.pick_best" => s.config_.text.pick_best = false
  | "align.transitive" => s.config_.text.transitive = false
  | "score.fuzz.ratio" => s.config_.decoder.scorer.fuzz_rat = decLit "0.0"
  | _ => True

/-! ### C4 -/

/-- C4: for every optional key of the claim, a request without that key
behaves exactly like the same request with the default supplied explicitly,
and the resolved configuration of a successful parse holds the declared
default for that key. -/
theorem QueryConfig_defaults (s : PState) (req : Request) (k d : String)
    (hmem : (k, d) ∈ defaultsTable) (hcnt : countKey req k = 0) :
    parseStep s (req ++ [(k, d)]) = parseStep s req ∧
    (reqError req = none → defaultHolds k (parseStep s req).1) := by
  fin_cases hmem <;>
    (first
      | (refine ⟨?_, ?_⟩
         · have hv : valuesOf req _ = [] := List.length_eq_zero.mp hcnt
           refine parseStep_congr s _ _ (storeUnk_append_declared _ _ _ (by decide))
             (fieldsErr_append _ _ _ hv (by decide)) ?_
             (checkOnce_append_nonmand _ _ _ (by decide))
           unfold theVM
           simp only [VM.mk.injEq]
           refine ⟨?_, ?_, ?_, ?_, ?_, ?_, ?_, ?_, ?_, ?_, ?_, ?_, ?_, ?_, ?_, ?_, ?_, ?_⟩ <;>
             first
               | exact vmField_append_this _ _ _ _ hv (by decide)
               | exact vmField_append_ne _ _ _ _ (by decide)
         · intro h
           have hv : valuesOf req _ = [] := List.length_eq_zero.mp hcnt
           have h2 : (parseStep s req).2 = none := by rw [parseStep_res]; exact h
           rcases hS : storeVM req with e | vm
           · simp [parseStep, hS] at h2
           · rcases hC : checkOnce req with _ | e
             · obtain ⟨hU, hF, hvm⟩ := storeVM_ok_eq hS
               subst hvm
               obtain ⟨v, hvic⟩ :=
                 count_one_single (checkOnce_none_counts hC "input.confidence" (by decide))
               have hic : (theVM req).input_confidence = some v := theVM_input_conf hvic
               have e1 : (vmNotify s (theVM req)).confidence_str = v := by
                 simp [vmNotify, hic]
               simp only [parseStep, hS, hC, e1] at h2 ⊢
               by_cases hsc : (confScan v.data).2.isEmpty = true
               · simp [defaultHolds, vmNotify, theVM, vmField, hv, hsc]
               · simp [hsc] at h2
             · simp [parseStep, hS, hC] at h2))

/-- C4 witness: the §8 scenario request, which omits `beam_size`, resolves
it to 500 and is indistinguishable from the request supplying
`beam_size=500` explicitly. -/
theorem QueryConfig_defaults_w :
    parseStep initState (exampleReq ++ [("beam_size", "500")]) =
      parseStep initState exampleReq ∧
    defaultHolds "beam_size" (parseStep initState exampleReq).1 :=
  ⟨(QueryConfig_defaults initState exampleReq "beam_size" "500"
      (by decide) (by decide)).1,
   (QueryConfig_defaults initState exampleReq "beam_size" "500"
      (by decide) (by decide)).2 (by decide)⟩

/-! ### C6 -/

theorem serviceCheckOnce_none_counts {args : Request} (h : serviceCheckOnce args = none) :
    ∀ k ∈ serviceMandatory, countKey args k = 1 := by
  intro k hk
  unfold serviceCheckOnce at h
  rw [Option.map_eq_none'] at h
  have := List.find?_eq_none.mp h k hk
  simpa using this

/-- C6: startup with an unrecognised `lm.type`, or with any of `lm.file`,
`lm.order`, `port` not supplied exactly once, raises an uncaught error:
`mainRun` aborts without constructing a `ServerSession`, i.e. before any
model is loaded or any socket is opened. -/
theorem ParseService_aborts (args : Request) (conns : List Request)
    (h : ((valuesOf args "lm.type").headD "salm" ≠ "salm" ∧
            (valuesOf args "lm.type").headD "salm" ≠ "sri") ∨
         ∃ K ∈ serviceMandatory, countKey args K ≠ 1) :
    ∃ e, mainRun args conns = .error e ∧ parseService args = .error e := by
  suffices hps : ∃ e, parseService args = .error e by
    obtain ⟨e, he⟩ := hps
    exact ⟨e, by unfold mainRun; rw [he]; rfl, he⟩
  unfold parseService
  rcases hU : serviceUnk args with _ | e
  · rcases hF : serviceFieldsErr args with _ | e
    · rcases hM : serviceCheckOnce args with _ | e
      · rcases h with ⟨h1, h2⟩ | ⟨K, hK, hbad⟩
        · have htype : (theService args).lm.type = (valuesOf args "lm.type").headD "salm" :=
            rfl
          have hcond : ((theService args).lm.type == "salm" ||
              (theService args).lm.type == "sri") = false := by
            have e1 : ((valuesOf args "lm.type").headD "salm" == "salm") = false :=
              beq_eq_false_iff_ne.mpr h1
            have e2 : ((valuesOf args "lm.type").headD "salm" == "sri") = false :=
              beq_eq_false_iff_ne.mpr h2
            rw [htype, e1, e2]
            rfl
          refine ⟨.noSuchLM (theService args).lm.type, ?_⟩
          simp only [hcond]
          rfl
        · exact absurd (serviceCheckOnce_none_counts hM K hK) hbad
      · exact ⟨e, rfl⟩
    · exact ⟨e, rfl⟩
  · exact ⟨e, rfl⟩

/-- C6 witness: `lm.type=ken` aborts startup with `NoSuchLMError` before a
session exists. -/
theorem ParseService_aborts_w :
    ∃ e, mainRun
        [("lm.type", "ken"), ("lm.file", "m"), ("lm.order", "3"), ("port", "9000")] [] =
        .error e ∧
      parseService
        [("lm.type", "ken"), ("lm.file", "m"), ("lm.order", "3"), ("port", "9000")] =
        .error e :=
  ParseService_aborts _ _ (.inl ⟨by decide, by decide⟩)

/-! ### C8 -/

/-- C8 counterexample: the claim says every value in `0..65535` supplied as
`--port` is representable and used, but `ServiceConfig::port` is a `short
int` (Server.cc line 225): supplying 40000 fails `lexical_cast<short>` and
aborts startup instead of listening on port 40000. -/
theorem ServiceConfig_port_cex :
    parseService [("lm.file", "m"), ("lm.order", "3"), ("port", "40000")] =
      .error (.invalidValue "port") := rfl

/-- Startup arguments with a symbolic decimal port value. -/
def portArgs (n : Nat) : Request :=
  [("lm.file", "m"), ("lm.order", "3"), ("port", natStr n)]

theorem portConv_natStr (n : Nat) :
    portConv (natStr n) = if n ≤ 32767 then some (n : Int) else none := by
  unfold portConv intConvB natStr
  obtain ⟨c, cs, hc⟩ : ∃ c cs, natChars n = c :: cs := by
    rcases h : natChars n with _ | ⟨a, b⟩
    · exact absurd h (natChars_ne_nil n)
    · exact ⟨a, b, rfl⟩
  have hcd : c.isDigit = true := by
    have := natChars_all_digits n
    rw [hc] at this
    exact (List.all_eq_true.mp this c (List.mem_cons_self c cs))
  have hdata : (String.mk (natChars n)).data = natChars n := rfl
  rw [hdata, hc]
  have hval : parseNat (c :: cs) = some n := by rw [← hc]; exact parseNat_natChars n
  have hne1 : c ≠ '-' := by
    intro he
    rw [he] at hcd
    cases hcd
  have hne2 : c ≠ '+' := by
    intro he
    rw [he] at hcd
    cases hcd
  split
  · rename_i ds heq
    exact absurd (List.cons.injEq _ _ _ _ ▸ heq :
      c = '-' ∧ cs = ds).1 hne1
  · rename_i ds heq
    exact absurd (List.cons.injEq _ _ _ _ ▸ heq :
      c = '+' ∧ cs = ds).1 hne2
  · rw [hval]
    simp only [Option.map_some']
    by_cases hn : n ≤ 32767
    · have ha : (-32768 : Int) ≤ (n : Int) := by omega
      have hb : (n : Int) ≤ 32767 := by omega
      rw [if_pos hn]
      simp [ha, hb]
    · have hb : ¬ (n : Int) ≤ 32767 := by omega
      rw [if_neg hn]
      simp [hb]

/-- C8 (amended): the listen port is a SIGNED 16-bit integer
(`short int`), so of the claimed range `0..65535` exactly the values
`0..32767` are representable and used as the listening port; the values
`32768..65535` are rejected at startup with an invalid-value error for
`port`. -/
theorem ServiceConfig_port_range (n : Nat) :
    (n ≤ 32767 →
      parseService (portArgs n) = .ok ⟨⟨"salm", "m", 3⟩, (n : Int)⟩) ∧
    (32768 ≤ n → n ≤ 65535 →
      parseService (portArgs n) = .error (.invalidValue "port")) := by
  have hport := portConv_natStr n
  have hvp : valuesOf (portArgs n) "port" = [natStr n] := rfl
  have hU : serviceUnk (portArgs n) = none := rfl
  have hM : serviceCheckOnce (portArgs n) = none := rfl
  have h1 : serviceFieldOk (portArgs n) "lm.type" = true := rfl
  have h2 : serviceFieldOk (portArgs n) "lm.file" = true := rfl
  have h3 : serviceFieldOk (portArgs n) "lm.order" = true := rfl
  constructor
  · intro hn
    rw [if_pos hn] at hport
    have h4 : serviceFieldOk (portArgs n) "port" = true := by
      unfold serviceFieldOk
      rw [hvp]
      show (portConv (natStr n)).isSome = true
      rw [hport]
      rfl
    have hF : serviceFieldsErr (portArgs n) = none := by
      unfold serviceFieldsErr
      simp [serviceKeys, List.find?, h1, h2, h3, h4]
    have htS : theService (portArgs n) = ⟨⟨"salm", "m", 3⟩, (n : Int)⟩ := by
      unfold theService
      rw [hvp]
      simp only [hport, Option.getD_some]
      rfl
    unfold parseService
    rw [hU, hF, hM, htS]
    rfl
  · intro hn1 _
    rw [if_neg (by omega)] at hport
    have h4 : serviceFieldOk (portArgs n) "port" = false := by
      unfold serviceFieldOk
      rw [hvp]
      show (portConv (natStr n)).isSome = false
      rw [hport]
      rfl
    have hF : serviceFieldsErr (portArgs n) = some (.invalidValue "port") := by
      unfold serviceFieldsErr
      simp [serviceKeys, List.find?, h1, h2, h3, h4]
    unfold parseService
    rw [hU, hF]

/-- C8 witness: port 9000 (the spec's scenario) is representable and used;
port 40000 is rejected. -/
theorem ServiceConfig_port_range_w :
    parseService (portArgs 9000) = .ok ⟨⟨"salm", "m", 3⟩, (9000 : Int)⟩ ∧
    parseService (portArgs 40000) = .error (.invalidValue "port") :=
  ⟨(ServiceConfig_port_range 9000).1 (by decide),
   (ServiceConfig_port_range 40000).2 (by decide) (by decide)⟩

end Memt









